import Mathlib

/-!
Verification of the certstream-analytics domain-matching pipeline.

This file is a shallow embedding of the analysis stages of
`certstream_analytics/analysers/common_domain_analyser.py` (and the
identical later copies in `analysers/domain_matching.py`) together with the
pipeline runner of `certstream_analytics/stream.py`, plus theorems about
the embedded code.

Modelling conventions:
* Python strings are modelled as `List Char` (named `Str`), so that every
  string operation used by the code (split on '.', join with '.', prefix
  stripping, substring containment) is a structurally recursive function
  that the kernel can evaluate.
* Python dicts are modelled as association lists in insertion order, with
  the exact dict semantics the code relies on: an update of an existing key
  keeps its position, a new key is appended at the end, lookup finds the
  (unique) binding.
* The two external library collaborators, `tldextract.extract` and
  `wordsegment.segment`, are parameters of every embedded function
  (`extract : Str → Ext`, `segment : Str → List Str`); the repository code
  is itself parametric in their behaviour.  Concrete stand-ins
  (`simpleExtract`, `simpleSegment`) are supplied for witnesses, matching
  the documented behaviour of both libraries on the inputs used.
* The `pyahocorasick` automaton is modelled by its interface: the multiset
  of added words, with `iter` enumerating every occurrence of every word.
  The enumeration order differs from the C library only in the relative
  order of distinct patterns ending at the same position, which no theorem
  below depends on.
* Python's stable `list.sort(key=len)` is modelled by a stable insertion
  sort by length (any two stable sorts by the same key agree).
-/

namespace CertstreamAnalytics

/-- A Python string, modelled as its list of characters. -/
abbrev Str := List Char

/-- Shorthand turning a Lean string literal into the `Str` model. -/
def str (s : String) : Str := s.toList

/-- Auxiliary for `splitDot`: accumulates the current (reversed) fragment. -/
def splitDotAux (cur : Str) : Str → List Str
  | [] => [cur.reverse]
  | c :: rest =>
    if c = '.' then cur.reverse :: splitDotAux [] rest
    else splitDotAux (c :: cur) rest

/-- Python `s.split('.')`: e.g. `"" ↦ [""]`, `"a.b" ↦ ["a", "b"]`. -/
def splitDot (s : Str) : List Str := splitDotAux [] s

/-- Python `'.'.join(parts)`. -/
def joinDot : List Str → Str
  | [] => []
  | [x] => x
  | x :: xs => x ++ '.' :: joinDot xs

/-- Python `needle in hay` on strings (substring containment). -/
def pyContains (hay needle : Str) : Bool := decide (needle <:+: hay)

/-- Python dict lookup `d[k]` / `k in d` on an insertion-ordered dict. -/
def dictGet? (d : List (Str × α)) (k : Str) : Option α :=
  match d with
  | [] => none
  | kv :: rest => if kv.1 = k then some kv.2 else dictGet? rest k

/-- Python dict update `d[k] = v`: an existing key keeps its position and
gets the new value, a new key is appended at the end.  (Dicts built by the
code always have distinct keys, so updating the first binding is exact.) -/
def dictSet (d : List (Str × α)) (k : Str) (v : α) : List (Str × α) :=
  match d with
  | [] => [(k, v)]
  | kv :: rest => if kv.1 = k then (k, v) :: rest else kv :: dictSet rest k v

/-- Python `if k not in d: d[k] = []` followed by `d[k].append(v)`. -/
def dictPush (d : List (Str × List Str)) (k : Str) (v : Str) : List (Str × List Str) :=
  match dictGet? d k with
  | some l => dictSet d k (l ++ [v])
  | none => d ++ [(k, [v])]

/-- The value list stored under key `k` (empty when the key is absent). -/
def dictVals (d : List (Str × List Str)) (k : Str) : List Str :=
  (dictGet? d k).getD []

/-- Result of `tldextract.extract`: the `(subdomain, domain, suffix)`
decomposition of a hostname. -/
structure Ext where
  subdomain : Str
  domain : Str
  suffix : Str
deriving DecidableEq

/-- Python `re.sub(r'^\*\.', '', d)`: strip one leading wildcard marker. -/
def stripWildcard (d : Str) : Str :=
  if (str "*.").isPrefixOf d then d.drop 2 else d

/-- Python `re.sub(r'^(autodiscover\.|cpanel\.)', '', d)`. -/
def stripIgnoredParts (d : Str) : Str :=
  if (str "autodiscover.").isPrefixOf d then d.drop 13
  else if (str "cpanel.").isPrefixOf d then d.drop 7
  else d

/-- Stable insertion of `a` into `l`, after all elements whose key is `≤`
`a`'s (so later elements land after equal keys, as in Python's sort). -/
def insortLe (le : α → α → Bool) (a : α) : List α → List α
  | [] => [a]
  | b :: bs => if le b a then b :: insortLe le a bs else a :: b :: bs

/-- Python's stable `list.sort(le)` (ascending, stable). -/
def pySort (le : α → α → Bool) (l : List α) : List α :=
  l.foldl (fun acc a => insortLe le a acc) []

/-- Ascending comparison by string length, the key of `matches.sort(key=len)`. -/
def lenLe (a b : Str) : Bool := decide (a.length ≤ b.length)

/-- The value stored by `AhoCorasickDomainMatching.run` in its results dict:
`[self.domains[match]]` when the matched label is a key of `self.domains`,
otherwise the bare label string (`match`). -/
inductive MatchVal where
  | canon (l : List Str)
  | raw (s : Str)
deriving DecidableEq

/-- Python iteration `for domain in domains` over a `MatchVal`: a list
yields its elements, a bare string yields its one-character substrings. -/
def MatchVal.iterate : MatchVal → List Str
  | .canon l => l
  | .raw s => s.map (fun c => [c])

/-- The `output` payload of a ledger entry, per producing stage. -/
inductive Output where
  | matches (m : List (Str × MatchVal))
  | segments (m : List (Str × List Str))
  | flag (b : Bool)
  | verdict (m : List (Str × List Str))
deriving DecidableEq

/-- Python truthiness of the stored output value (a dict is truthy iff
non-empty, a bool is itself). -/
def Output.truthy : Output → Bool
  | .matches m => !m.isEmpty
  | .segments m => !m.isEmpty
  | .flag b => b
  | .verdict m => !m.isEmpty

/-- One stage-result on the record's analysis ledger:
`{'analyser': NAME, 'output': ...}`. -/
structure Entry where
  analyser : String
  output : Output
deriving DecidableEq

/-- The certificate record flowing through the pipeline (see
`analysers/base.py`).  `analysers = none` models a record without the
`'analysers'` key.  The fixed certificate fields are carried along
untouched by every stage. -/
structure Record where
  cert_index : Int := 0
  seen : Int := 0
  chain : List Str := []
  not_before : Int := 0
  not_after : Int := 0
  all_domains : List Str := []
  analysers : Option (List Entry) := none
deriving DecidableEq

namespace AhoCorasickDomainMatching

/-- `type(self).__name__` of the substring-matcher stage. -/
def NAME : String := "AhoCorasickDomainMatching"

/-- `MIN_MATCHING_LENGTH`: occurrences shorter than this are discarded. -/
def MIN_MATCHING_LENGTH : Nat := 3

/-- `EXCLUDED_DOMAINS`: core labels that are never indexed. -/
def EXCLUDED_DOMAINS : List Str := [str "www", str "web"]

/-- The state built by `__init__`: the automaton's word set (in insertion
order) and the label-to-canonical-domain dict `self.domains`. -/
structure State where
  words : List Str
  domains : List (Str × Str)
deriving DecidableEq

/-- `automaton.add_word(w, ...)`: pyahocorasick stores each distinct
non-empty word once (re-adding only replaces the payload). -/
def addWord (ws : List Str) (w : Str) : List Str :=
  if w = [] ∨ w ∈ ws then ws else ws ++ [w]

/-- One iteration of the `__init__` loop over the reference-domain list. -/
def initStep (extract : Str → Ext) (st : State) (domain : Str) : State :=
  let ext := extract domain
  if ext.domain ∈ EXCLUDED_DOMAINS then st
  else { words := addWord st.words ext.domain
         domains := dictSet st.domains ext.domain domain }

/-- `__init__(domains)`: index every non-excluded core label and record its
canonical source domain. -/
def init (extract : Str → Ext) (domains : List Str) : State :=
  domains.foldl (initStep extract) ⟨[], []⟩

/-- Does word `w` occur in `s` ending at (0-based) position `i`? -/
def occursEndingAt (w s : Str) (i : Nat) : Bool :=
  decide (w.length ≤ i + 1) && decide ((s.take (i + 1)).drop (i + 1 - w.length) = w)

/-- `automaton.iter(s)`: the pattern of every occurrence of every indexed
word in `s`, positions ascending (this is the list `[m[1][1] for m in ...]`
before the length filter). -/
def iterValues (ws : List Str) (s : Str) : List Str :=
  (List.range s.length).flatMap (fun i => ws.filter (fun w => occursEndingAt w s i))

/-- The cosmetic per-SAN clean-up in `run`: strip a wildcard marker and the
FP-prone leading parts. -/
def clean (d : Str) : Str := stripIgnoredParts (stripWildcard d)

/-- The automaton query string of `run`: `'.'.join(ext[:2])` for the
cleaned domain. -/
def queryOf (extract : Str → Ext) (domain : Str) : Str :=
  let ext := extract domain
  joinDot [ext.subdomain, ext.domain]

/-- The `matches` list `run` computes for one (already cleaned) domain:
every occurrence, keeping only labels of length `≥ MIN_MATCHING_LENGTH`. -/
def matchesFor (extract : Str → Ext) (st : State) (domain : Str) : List Str :=
  (iterValues st.words (queryOf extract domain)).filter
    (fun w => decide (MIN_MATCHING_LENGTH ≤ w.length))

/-- `matches.sort(key=len); match = matches[-1]` followed by
`[self.domains[match]] if match in self.domains else match`. -/
def best (st : State) (ms : List Str) : MatchVal :=
  match (pySort lenLe ms).getLast? with
  | none => MatchVal.raw []
  | some m =>
    match dictGet? st.domains m with
    | some dom => MatchVal.canon [dom]
    | none => MatchVal.raw m

/-- The SAN loop of `run`: scan in record order, and on the first domain
whose match list is non-empty store that single result and `break`. -/
def scan (extract : Str → Ext) (st : State) : List Str → List (Str × MatchVal)
  | [] => []
  | d :: rest =>
    let domain := clean d
    let ms := matchesFor extract st domain
    if ms.isEmpty then scan extract st rest
    else [(domain, best st ms)]

/-- `AhoCorasickDomainMatching.run(record)`. -/
def run (extract : Str → Ext) (st : State) (r : Record) : Record :=
  let ledger := r.analysers.getD []
  let results := scan extract st r.all_domains
  if results.isEmpty then { r with analysers := some ledger }
  else { r with analysers := some (ledger ++ [⟨NAME, Output.matches results⟩]) }

end AhoCorasickDomainMatching

namespace WordSegmentation

/-- `type(self).__name__` of the word-segmenter stage. -/
def NAME : String := "WordSegmentation"

/-- `STOPWORDS`: noise tokens removed from every segmentation. -/
def STOPWORDS : List Str :=
  [str "app", str "inc", str "box", str "health",
   str "home", str "space", str "cars", str "nature"]

/-- The token sequence `run` computes for one (wildcard-stripped) domain:
segment every dot-token of every `tldextract` part and drop stopwords. -/
def segmentDomain (extract : Str → Ext) (segment : Str → List Str) (domain : Str) : List Str :=
  let ext := extract domain
  [ext.subdomain, ext.domain, ext.suffix].flatMap (fun part =>
    (splitDot part).flatMap (fun token =>
      (segment token).filter (fun w => decide (w ∉ STOPWORDS))))

/-- `WordSegmentation.run(record)`: exhaustive over all SANs, one dict
keyed by the wildcard-stripped domain. -/
def run (extract : Str → Ext) (segment : Str → List Str) (r : Record) : Record :=
  let ledger := r.analysers.getD []
  let results := r.all_domains.foldl (fun res d =>
    let domain := stripWildcard d
    dictSet res domain (segmentDomain extract segment domain)) []
  if results.isEmpty then { r with analysers := some ledger }
  else { r with analysers := some (ledger ++ [⟨NAME, Output.segments results⟩]) }

end WordSegmentation

namespace BulkDomainMarker

/-- `type(self).__name__` of the bulk-certificate marker. -/
def NAME : String := "BulkDomainMarker"

/-- `BULK_DOMAIN_THRESHOLD`, the default SAN-count threshold. -/
def BULK_DOMAIN_THRESHOLD : Nat := 15

/-- `BulkDomainMarker.run(record)`: always append one boolean entry,
`True` iff `len(record['all_domains']) >= self.threshold`. -/
def run (threshold : Nat) (r : Record) : Record :=
  let ledger := r.analysers.getD []
  let is_bulked := decide (threshold ≤ r.all_domains.length)
  { r with analysers := some (ledger ++ [⟨NAME, Output.flag is_bulked⟩]) }

end BulkDomainMarker

namespace DomainMatching

/-- `type(self).__name__` of the correlation stage. -/
def NAME : String := "DomainMatching"

/-- `DomainMatchingOption`: subset (unordered) vs order-preserving match. -/
inductive DomainMatchingOption where
  | SUBSET_MATCH
  | ORDER_MATCH
deriving DecidableEq

/-- The comparison applied in `_match`:
`legit.issubset(phish)` for set mode, and
`'.{}'.format('.'.join(legit)) in '.'.join(phish)` for order mode. -/
def tokensMatch : DomainMatchingOption → List Str → List Str → Bool
  | .SUBSET_MATCH, phish, legit => legit.all (fun t => decide (t ∈ phish))
  | .ORDER_MATCH, phish, legit => pyContains (joinDot phish) ('.' :: joinDot legit)

/-- The `tmp` token list `_match` builds for one candidate reference
domain: segment every dot-token of its parts (`ext[:]` with the TLD,
`ext[:2]` without). -/
def legitTokens (extract : Str → Ext) (segment : Str → List Str)
    (includeTld : Bool) (domain : Str) : List Str :=
  let ext := extract domain
  (if includeTld then [ext.subdomain, ext.domain, ext.suffix]
   else [ext.subdomain, ext.domain]).flatMap (fun part =>
    (splitDot part).flatMap segment)

/-- The body of the inner candidate loop of `_match` for one candidate
`domain`: `False` when the legitimate-relationship filter
(`ext[1:] == match_ext[1:]`) triggers, else the configured comparison. -/
def candFilter (extract : Str → Ext) (segment : Str → List Str)
    (includeTld : Bool) (opt : DomainMatchingOption)
    (phish : List Str) (matchExt : Ext) (domain : Str) : Bool :=
  let ext := extract domain
  if ext.domain = matchExt.domain ∧ ext.suffix = matchExt.suffix then false
  else tokensMatch opt phish (legitTokens extract segment includeTld domain)

/-- The outer loop body of `_match` for one `(match, domains)` item of the
AhoCorasick output dict. -/
def matchOne (extract : Str → Ext) (segment : Str → List Str)
    (includeTld : Bool) (opt : DomainMatchingOption)
    (segOut : List (Str × List Str)) (res : List (Str × List Str))
    (m : Str) (mv : MatchVal) : List (Str × List Str) :=
  match dictGet? segOut m with
  | none => res
  | some phish =>
    mv.iterate.foldl (fun res domain =>
      if candFilter extract segment includeTld opt phish (extract m) domain
      then dictPush res m domain else res) res

/-- `DomainMatching._match(ahocorasick_output, segmentation_output)`. -/
def matchFn (extract : Str → Ext) (segment : Str → List Str)
    (includeTld : Bool) (opt : DomainMatchingOption)
    (ahoOut : List (Str × MatchVal)) (segOut : List (Str × List Str)) :
    List (Str × List Str) :=
  ahoOut.foldl (fun res kv => matchOne extract segment includeTld opt segOut res kv.1 kv.2) []

/-- The local `analysers` dict of `run` (initially three empty-dict
slots, modelled as `none`). -/
structure Collected where
  aho : Option Output
  seg : Option Output
  bulk : Option Output
deriving DecidableEq

/-- One iteration of the collection loop of `run`: entries with other
names are ignored, a truthy BulkDomainMarker output is skipped, every
other recognised entry overwrites its slot. -/
def collectStep (acc : Collected) (en : Entry) : Collected :=
  if en.analyser = AhoCorasickDomainMatching.NAME then { acc with aho := some en.output }
  else if en.analyser = WordSegmentation.NAME then { acc with seg := some en.output }
  else if en.analyser = BulkDomainMarker.NAME then
    if en.output.truthy then acc else { acc with bulk := some en.output }
  else acc

/-- Truthiness of a slot of the local dict (`not analysers[...]`). -/
def otruthy : Option Output → Bool
  | none => false
  | some o => o.truthy

/-- View of a collected slot as the AhoCorasick output dict.  Entries
appended under `AhoCorasickDomainMatching.NAME` always carry the
`Output.matches` constructor. -/
def optAsMatches : Option Output → List (Str × MatchVal)
  | some (.matches m) => m
  | _ => []

/-- View of a collected slot as the WordSegmentation output dict.  Entries
appended under `WordSegmentation.NAME` always carry `Output.segments`. -/
def optAsSegments : Option Output → List (Str × List Str)
  | some (.segments m) => m
  | _ => []

/-- `DomainMatching.run(record)`. -/
def run (extract : Str → Ext) (segment : Str → List Str)
    (includeTld : Bool) (opt : DomainMatchingOption) (r : Record) : Record :=
  match r.analysers with
  | none => r
  | some ledger =>
    let acc := ledger.foldl collectStep ⟨none, none, none⟩
    if otruthy acc.aho = false ∨ otruthy acc.seg = false then r
    else
      let results := matchFn extract segment includeTld opt
        (optAsMatches acc.aho) (optAsSegments acc.seg)
      if results.isEmpty then r
      else { r with analysers := some (ledger ++ [⟨NAME, Output.verdict results⟩]) }

end DomainMatching

/-- The analyser loop of `CertstreamAnalytics._callback` (`stream.py`):
`for analyser in self.analysers: if not transformed_message: break;
transformed_message = analyser.run(transformed_message)`.  A stage that
raises is modelled as returning `Except.error`; the loop body contains no
`try`, so an error propagates out of the whole callback. -/
def runAnalysers (truthy : α → Bool) : List (α → Except ε α) → α → Except ε α
  | [], r => Except.ok r
  | s :: rest, r =>
    if truthy r = false then Except.ok r
    else
      match s r with
      | Except.error e => Except.error e
      | Except.ok r' => runAnalysers truthy rest r'

/-- Modelled from the spec: the propagation policy of spec §7 — "any error
raised inside a single analysis stage for a single record is caught at the
pipeline-runner boundary and converted into 'this stage produced no output
for this record' — processing continues with the next stage".  Stated here
only for comparison with the actual `runAnalysers` above. -/
def runAnalysersSpec (truthy : α → Bool) : List (α → Except ε α) → α → α
  | [], r => r
  | s :: rest, r =>
    if truthy r = false then r
    else
      match s r with
      | Except.error _ => runAnalysersSpec truthy rest r
      | Except.ok r' => runAnalysersSpec truthy rest r'

/-- Concrete stand-in for `tldextract.extract` used in witnesses: the last
dot-label is the public suffix, the one before it the registrable domain,
the rest the subdomain — accurate for the plain `.com`/`.net`-style names
used below. -/
def simpleExtract (s : Str) : Ext :=
  let parts := splitDot s
  if parts.length ≤ 1 then ⟨[], s, []⟩
  else ⟨joinDot (parts.dropLast.dropLast), parts.dropLast.getLastD [], parts.getLastD []⟩

/-- Lookup table of `wordsegment.segment` results used by witnesses. -/
def segTable : List (Str × List Str) :=
  [(str "login-appleid", [str "login", str "apple", str "id"]),
   (str "managesuppport", [str "manage", str "suppport"]),
   (str "agrosupport", [str "agro", str "support"])]

/-- Concrete stand-in for `wordsegment.segment` used in witnesses: table
entries above, `[]` on the empty string (as the real library), and the
token itself (a dictionary word) otherwise. -/
def simpleSegment (s : Str) : List Str :=
  match dictGet? segTable s with
  | some ws => ws
  | none => if s = [] then [] else [s]

/-! ### Dictionary lemmas -/

theorem dictGet?_dictSet_self (d : List (Str × α)) (k : Str) (v : α) :
    dictGet? (dictSet d k v) k = some v := by
  induction d with
  | nil => simp [dictGet?, dictSet]
  | cons kv rest ih =>
    by_cases h : kv.1 = k <;> simp [dictGet?, dictSet, h, ih]

theorem dictGet?_dictSet_ne (d : List (Str × α)) (k k' : Str) (v : α) (h : k' ≠ k) :
    dictGet? (dictSet d k v) k' = dictGet? d k' := by
  have h' : ¬(k = k') := fun hh => h hh.symm
  induction d with
  | nil => simp [dictGet?, dictSet, h']
  | cons kv rest ih =>
    by_cases hk : kv.1 = k
    · simp [dictGet?, dictSet, hk, h', h]
    · by_cases hk' : kv.1 = k' <;> simp [dictGet?, dictSet, hk, hk', ih, h]

theorem dictGet?_append_single_self (d : List (Str × α)) (k : Str) (v : α)
    (h : dictGet? d k = none) : dictGet? (d ++ [(k, v)]) k = some v := by
  induction d with
  | nil => simp [dictGet?]
  | cons kv rest ih =>
    by_cases hk : kv.1 = k
    · rw [dictGet?, if_pos hk] at h; cases h
    · rw [dictGet?, if_neg hk] at h
      simpa [dictGet?, hk] using ih h

theorem dictGet?_append_single_ne (d : List (Str × α)) (k k' : Str) (v : α)
    (h : k' ≠ k) : dictGet? (d ++ [(k, v)]) k' = dictGet? d k' := by
  have h' : ¬(k = k') := fun hh => h hh.symm
  induction d with
  | nil => simp [dictGet?, h']
  | cons kv rest ih =>
    by_cases hk : kv.1 = k' <;> simp [dictGet?, hk, ih]

theorem dictVals_dictPush_self (d : List (Str × List Str)) (k : Str) (v : Str) :
    dictVals (dictPush d k v) k = dictVals d k ++ [v] := by
  unfold dictPush
  cases hd : dictGet? d k with
  | none => simp [dictVals, hd, dictGet?_append_single_self d k [v] hd]
  | some l => simp [dictVals, hd, dictGet?_dictSet_self]

theorem dictVals_dictPush_ne (d : List (Str × List Str)) (k k' : Str) (v : Str)
    (h : k' ≠ k) : dictVals (dictPush d k v) k' = dictVals d k' := by
  unfold dictPush
  cases hd : dictGet? d k with
  | none => simp [dictVals, dictGet?_append_single_ne d k k' [v] h]
  | some l => simp [dictVals, dictGet?_dictSet_ne d k k' (l ++ [v]) h]

theorem mem_dictVals_dictPush (d : List (Str × List Str)) (k k' : Str) (v v' : Str) :
    v' ∈ dictVals (dictPush d k v) k' ↔ v' ∈ dictVals d k' ∨ (k' = k ∧ v' = v) := by
  by_cases hk : k' = k
  · subst hk; rw [dictVals_dictPush_self]; simp
  · rw [dictVals_dictPush_ne d k k' v hk]; simp [hk]

/-! ### Stable-sort lemmas -/

theorem mem_insortLe (le : α → α → Bool) (a b : α) (l : List α) :
    b ∈ insortLe le a l ↔ b ∈ l ∨ b = a := by
  induction l with
  | nil => simp [insortLe]
  | cons c cs ih =>
    by_cases h : le c a <;> simp [insortLe, h, ih] <;> tauto

theorem length_insortLe (le : α → α → Bool) (a : α) (l : List α) :
    (insortLe le a l).length = l.length + 1 := by
  induction l with
  | nil => rfl
  | cons c cs ih => by_cases h : le c a <;> simp [insortLe, h, ih]

theorem mem_pySort_aux (le : α → α → Bool) (l acc : List α) (b : α) :
    b ∈ l.foldl (fun acc a => insortLe le a acc) acc ↔ b ∈ acc ∨ b ∈ l := by
  induction l generalizing acc with
  | nil => simp
  | cons a as ih =>
    rw [List.foldl_cons, ih, mem_insortLe]
    simp
    tauto

theorem mem_pySort (le : α → α → Bool) (l : List α) (b : α) :
    b ∈ pySort le l ↔ b ∈ l := by
  simp [pySort, mem_pySort_aux]

theorem length_pySort_aux (le : α → α → Bool) (l acc : List α) :
    (l.foldl (fun acc a => insortLe le a acc) acc).length = acc.length + l.length := by
  induction l generalizing acc with
  | nil => rfl
  | cons a as ih =>
    rw [List.foldl_cons, ih, length_insortLe]
    simp [List.length_cons]
    omega

theorem length_pySort (le : α → α → Bool) (l : List α) :
    (pySort le l).length = l.length := by
  simp [pySort, length_pySort_aux]

theorem pySort_ne_nil (le : α → α → Bool) (l : List α) (h : l ≠ []) :
    pySort le l ≠ [] := by
  intro hc
  apply h
  have := length_pySort le l
  rw [hc] at this
  exact List.eq_nil_of_length_eq_zero this.symm

/-! ### Substring-matcher lemmas -/

namespace AhoCorasickDomainMatching

theorem mem_addWord (ws : List Str) (w w' : Str) (h : w' ∈ addWord ws w) :
    w' ∈ ws ∨ w' = w := by
  unfold addWord at h
  by_cases hc : w = [] ∨ w ∈ ws
  · rw [if_pos hc] at h; exact Or.inl h
  · rw [if_neg hc] at h
    rcases List.mem_append.mp h with h | h
    · exact Or.inl h
    · exact Or.inr (List.mem_singleton.mp h)

theorem mem_iterValues_words (ws : List Str) (s w : Str) (h : w ∈ iterValues ws s) :
    w ∈ ws := by
  unfold iterValues at h
  obtain ⟨i, _, hw⟩ := List.mem_flatMap.mp h
  exact (List.mem_filter.mp hw).1

theorem mem_matchesFor_words (extract : Str → Ext) (st : State) (d w : Str)
    (h : w ∈ matchesFor extract st d) : w ∈ st.words := by
  unfold matchesFor at h
  exact mem_iterValues_words _ _ _ (List.mem_filter.mp h).1

theorem length_of_mem_matchesFor (extract : Str → Ext) (st : State) (d w : Str)
    (h : w ∈ matchesFor extract st d) : MIN_MATCHING_LENGTH ≤ w.length := by
  unfold matchesFor at h
  simpa using (List.mem_filter.mp h).2

/-- The indexed-words-have-canonical-domains invariant of `__init__`. -/
def Inv (st : State) : Prop :=
  ∀ w ∈ st.words, (dictGet? st.domains w).isSome = true

theorem initStep_inv (extract : Str → Ext) (st : State) (d : Str) (h : Inv st) :
    Inv (initStep extract st d) := by
  unfold initStep
  by_cases hex : (extract d).domain ∈ EXCLUDED_DOMAINS
  · simpa [hex] using h
  · rw [if_neg hex]
    intro w hw
    rcases mem_addWord st.words (extract d).domain w hw with hmem | rfl
    · by_cases hk : w = (extract d).domain
      · subst hk; rw [dictGet?_dictSet_self]; rfl
      · rw [dictGet?_dictSet_ne st.domains (extract d).domain w d hk]
        exact h w hmem
    · rw [dictGet?_dictSet_self]; rfl

theorem init_inv_aux (extract : Str → Ext) (ds : List Str) (st : State) (h : Inv st) :
    Inv (ds.foldl (initStep extract) st) := by
  induction ds generalizing st with
  | nil => exact h
  | cons d rest ih => exact ih (initStep extract st d) (initStep_inv extract st d h)

theorem init_inv (extract : Str → Ext) (ds : List Str) : Inv (init extract ds) :=
  init_inv_aux extract ds ⟨[], []⟩ (fun w hw => absurd hw (List.not_mem_nil w))

theorem best_canon (st : State) (ms : List Str) (hne : ms ≠ [])
    (hsub : ∀ w ∈ ms, (dictGet? st.domains w).isSome = true) :
    ∃ c, best st ms = MatchVal.canon [c] := by
  have hne' : pySort lenLe ms ≠ [] := pySort_ne_nil lenLe ms hne
  have hlast : (pySort lenLe ms).getLast? = some ((pySort lenLe ms).getLast hne') :=
    List.getLast?_eq_getLast (pySort lenLe ms) hne'
  have hmem : (pySort lenLe ms).getLast hne' ∈ ms :=
    (mem_pySort lenLe ms _).mp (List.getLast_mem hne')
  have hsome := hsub _ hmem
  cases hd : dictGet? st.domains ((pySort lenLe ms).getLast hne') with
  | none => rw [hd] at hsome; cases hsome
  | some c =>
    refine ⟨c, ?_⟩
    unfold best
    rw [hlast]
    simp [hd]

theorem scan_mem (extract : Str → Ext) (st : State) (doms : List Str)
    (kv : Str × MatchVal) (hkv : kv ∈ scan extract st doms) :
    ∃ d, matchesFor extract st (clean d) ≠ [] ∧
      kv = (clean d, best st (matchesFor extract st (clean d))) := by
  induction doms with
  | nil => cases hkv
  | cons d rest ih =>
    by_cases h : (matchesFor extract st (clean d)).isEmpty
    · rw [show scan extract st (d :: rest) = scan extract st rest by
        simp [scan, h]] at hkv
      exact ih hkv
    · rw [show scan extract st (d :: rest) =
          [(clean d, best st (matchesFor extract st (clean d)))] by
        simp [scan, h]] at hkv
      exact ⟨d, by simpa using h, List.mem_singleton.mp hkv⟩

theorem scan_nil_of_all_miss (extract : Str → Ext) (st : State) (doms : List Str)
    (h : ∀ x ∈ doms, matchesFor extract st (clean x) = []) :
    scan extract st doms = [] := by
  induction doms with
  | nil => rfl
  | cons d rest ih =>
    have hd : matchesFor extract st (clean d) = [] := h d (List.mem_cons_self d rest)
    have hrest := ih (fun x hx => h x (List.mem_cons_of_mem d hx))
    simp [scan, hd, hrest]

theorem scan_first_hit (extract : Str → Ext) (st : State) (pre : List Str) (d : Str)
    (post : List Str)
    (hpre : ∀ x ∈ pre, matchesFor extract st (clean x) = [])
    (hd : matchesFor extract st (clean d) ≠ []) :
    scan extract st (pre ++ d :: post) =
      [(clean d, best st (matchesFor extract st (clean d)))] := by
  induction pre with
  | nil =>
    have : ¬(matchesFor extract st (clean d)).isEmpty := by simpa using hd
    simp [scan, this]
  | cons x xs ih =>
    have hx : matchesFor extract st (clean x) = [] := hpre x (List.mem_cons_self x xs)
    have := ih (fun y hy => hpre y (List.mem_cons_of_mem x hy))
    simpa [scan, hx] using this

end AhoCorasickDomainMatching

/-! ### Correlation-stage lemmas -/

namespace DomainMatching

theorem collectStep_aho (acc : Collected) (en : Entry)
    (h : en.analyser ≠ AhoCorasickDomainMatching.NAME) :
    (collectStep acc en).aho = acc.aho := by
  unfold collectStep
  rw [if_neg h]
  by_cases h2 : en.analyser = WordSegmentation.NAME
  · rw [if_pos h2]
  · rw [if_neg h2]
    by_cases h3 : en.analyser = BulkDomainMarker.NAME
    · rw [if_pos h3]
      by_cases h4 : en.output.truthy <;> simp [h4]
    · rw [if_neg h3]

theorem collectStep_seg (acc : Collected) (en : Entry)
    (h : en.analyser ≠ WordSegmentation.NAME) :
    (collectStep acc en).seg = acc.seg := by
  unfold collectStep
  by_cases h1 : en.analyser = AhoCorasickDomainMatching.NAME
  · rw [if_pos h1]
  · rw [if_neg h1, if_neg h]
    by_cases h3 : en.analyser = BulkDomainMarker.NAME
    · rw [if_pos h3]
      by_cases h4 : en.output.truthy <;> simp [h4]
    · rw [if_neg h3]

theorem collect_aho_of_absent (ledger : List Entry) (acc : Collected)
    (h : ∀ en ∈ ledger, en.analyser ≠ AhoCorasickDomainMatching.NAME) :
    (ledger.foldl collectStep acc).aho = acc.aho := by
  induction ledger generalizing acc with
  | nil => rfl
  | cons en rest ih =>
    rw [List.foldl_cons, ih (collectStep acc en)
      (fun e he => h e (List.mem_cons_of_mem en he))]
    exact collectStep_aho acc en (h en (List.mem_cons_self en rest))

theorem collect_seg_of_absent (ledger : List Entry) (acc : Collected)
    (h : ∀ en ∈ ledger, en.analyser ≠ WordSegmentation.NAME) :
    (ledger.foldl collectStep acc).seg = acc.seg := by
  induction ledger generalizing acc with
  | nil => rfl
  | cons en rest ih =>
    rw [List.foldl_cons, ih (collectStep acc en)
      (fun e he => h e (List.mem_cons_of_mem en he))]
    exact collectStep_seg acc en (h en (List.mem_cons_self en rest))

theorem foldl_dictPush_mem (P : Str → Bool) (m : Str) (l : List Str)
    (res : List (Str × List Str)) (k v : Str) :
    v ∈ dictVals (l.foldl (fun res d => if P d then dictPush res m d else res) res) k ↔
      v ∈ dictVals res k ∨ (k = m ∧ v ∈ l ∧ P v = true) := by
  induction l generalizing res with
  | nil => simp
  | cons d ds ih =>
    rw [List.foldl_cons]
    by_cases hP : P d
    · rw [if_pos hP, ih, mem_dictVals_dictPush]
      constructor
      · rintro ((hv | ⟨rfl, hvd⟩) | ⟨rfl, hmem, hPv⟩)
        · exact Or.inl hv
        · refine Or.inr ⟨rfl, ?_, ?_⟩
          · rw [hvd]; exact List.mem_cons_self d ds
          · rw [hvd]; exact hP
        · exact Or.inr ⟨rfl, List.mem_cons_of_mem d hmem, hPv⟩
      · rintro (hv | ⟨rfl, hmem, hPv⟩)
        · exact Or.inl (Or.inl hv)
        · rcases List.mem_cons.mp hmem with hvd | hmem
          · exact Or.inl (Or.inr ⟨rfl, hvd⟩)
          · exact Or.inr ⟨rfl, hmem, hPv⟩
    · rw [if_neg hP, ih]
      constructor
      · rintro (hv | ⟨rfl, hmem, hPv⟩)
        · exact Or.inl hv
        · exact Or.inr ⟨rfl, List.mem_cons_of_mem d hmem, hPv⟩
      · rintro (hv | ⟨rfl, hmem, hPv⟩)
        · exact Or.inl hv
        · rcases List.mem_cons.mp hmem with hvd | hmem
          · rw [hvd] at hPv; exact absurd hPv hP
          · exact Or.inr ⟨rfl, hmem, hPv⟩

theorem matchOne_mem (extract : Str → Ext) (segment : Str → List Str)
    (includeTld : Bool) (opt : DomainMatchingOption)
    (segOut : List (Str × List Str)) (res : List (Str × List Str))
    (m : Str) (mv : MatchVal) (k v : Str) :
    v ∈ dictVals (matchOne extract segment includeTld opt segOut res m mv) k ↔
      v ∈ dictVals res k ∨
        (k = m ∧ ∃ phish, dictGet? segOut m = some phish ∧ v ∈ mv.iterate ∧
          candFilter extract segment includeTld opt phish (extract m) v = true) := by
  unfold matchOne
  cases hseg : dictGet? segOut m with
  | none => simp [hseg]
  | some phish =>
    rw [foldl_dictPush_mem]
    constructor
    · rintro (hv | ⟨rfl, hmem, hPv⟩)
      · exact Or.inl hv
      · exact Or.inr ⟨rfl, phish, rfl, hmem, hPv⟩
    · rintro (hv | ⟨rfl, phish', hphish', hmem, hPv⟩)
      · exact Or.inl hv
      · injection hphish' with hp
        rw [← hp] at hPv
        exact Or.inr ⟨rfl, hmem, hPv⟩

theorem matchFn_go_mem (extract : Str → Ext) (segment : Str → List Str)
    (includeTld : Bool) (opt : DomainMatchingOption)
    (segOut : List (Str × List Str)) (ahoOut : List (Str × MatchVal))
    (res : List (Str × List Str)) (k v : Str) :
    v ∈ dictVals (ahoOut.foldl
        (fun res kv => matchOne extract segment includeTld opt segOut res kv.1 kv.2) res) k ↔
      v ∈ dictVals res k ∨
        ∃ mv, (k, mv) ∈ ahoOut ∧ ∃ phish, dictGet? segOut k = some phish ∧
          v ∈ mv.iterate ∧
          candFilter extract segment includeTld opt phish (extract k) v = true := by
  induction ahoOut generalizing res with
  | nil => simp
  | cons kv rest ih =>
    rw [List.foldl_cons, ih, matchOne_mem]
    constructor
    · rintro ((hv | ⟨rfl, phish, hphish, hmem, hPv⟩) | ⟨mv, hmv, hrest⟩)
      · exact Or.inl hv
      · exact Or.inr ⟨kv.2, List.mem_cons_self kv rest, phish, hphish, hmem, hPv⟩
      · exact Or.inr ⟨mv, List.mem_cons_of_mem kv hmv, hrest⟩
    · rintro (hv | ⟨mv, hmv, phish, hphish, hmem, hPv⟩)
      · exact Or.inl (Or.inl hv)
      · rcases List.mem_cons.mp hmv with heq | hmv
        · have h1 : kv.1 = k := by rw [← heq]
          have h2 : kv.2 = mv := by rw [← heq]
          subst h1
          rw [← h2] at hmem
          exact Or.inl (Or.inr ⟨rfl, phish, hphish, hmem, hPv⟩)
        · exact Or.inr ⟨mv, hmv, phish, hphish, hmem, hPv⟩

theorem matchFn_mem (extract : Str → Ext) (segment : Str → List Str)
    (includeTld : Bool) (opt : DomainMatchingOption)
    (ahoOut : List (Str × MatchVal)) (segOut : List (Str × List Str)) (k v : Str) :
    v ∈ dictVals (matchFn extract segment includeTld opt ahoOut segOut) k ↔
      ∃ mv, (k, mv) ∈ ahoOut ∧ ∃ phish, dictGet? segOut k = some phish ∧
        v ∈ mv.iterate ∧
        candFilter extract segment includeTld opt phish (extract k) v = true := by
  unfold matchFn
  rw [matchFn_go_mem]
  simp [dictVals, dictGet?]

end DomainMatching

/-! ### Concrete records used by witnesses and counterexamples -/

/-- Ledger of end-to-end scenario 3: `agrosupport.zendesk.com` matched
against the reference list `[zendesk.com]`, with its segmentation. -/
def zendeskLedger : List Entry :=
  [⟨AhoCorasickDomainMatching.NAME,
    Output.matches [(str "agrosupport.zendesk.com", MatchVal.canon [str "zendesk.com"])]⟩,
   ⟨WordSegmentation.NAME,
    Output.segments [(str "agrosupport.zendesk.com",
      [str "agro", str "support", str "zendesk", str "com"])]⟩]

/-- Record of end-to-end scenario 3. -/
def zendeskRecord : Record :=
  { all_domains := [str "agrosupport.zendesk.com"], analysers := some zendeskLedger }

/-- A bulk record (20 SAN domains) whose ledger carries a true Bulk-Marker
entry together with matching Substring-Matcher and Word-Segmenter output. -/
def bulkLedger : List Entry :=
  [⟨BulkDomainMarker.NAME, Output.flag true⟩,
   ⟨AhoCorasickDomainMatching.NAME,
    Output.matches [(str "login-appleid.managesuppport.com", MatchVal.canon [str "apple.com"])]⟩,
   ⟨WordSegmentation.NAME,
    Output.segments [(str "login-appleid.managesuppport.com",
      [str "login", str "apple", str "id", str "manage", str "suppport"])]⟩]

/-- The bulk record itself. -/
def bulkTrueRecord : Record :=
  { all_domains := str "login-appleid.managesuppport.com" :: List.replicate 19 (str "unrelated.example")
    analysers := some bulkLedger }

/-- Word-segmentation output whose joined token string starts with the
joined token string of the reference domain `apple.com`. -/
def c2SegOut : List (Str × List Str) :=
  [(str "apple.com.evil.net", [str "apple", str "com", str "evil", str "net"])]

/-- Substring-matcher output for the same matched domain. -/
def c2AhoOut : List (Str × MatchVal) :=
  [(str "apple.com.evil.net", MatchVal.canon [str "apple.com"])]

/-- Record carrying the two entries above. -/
def c2Record : Record :=
  { all_domains := [str "apple.com.evil.net"]
    analysers := some
      [⟨AhoCorasickDomainMatching.NAME, Output.matches c2AhoOut⟩,
       ⟨WordSegmentation.NAME, Output.segments c2SegOut⟩] }

/-- A record whose single SAN has a DNS label (`app`) that loses all its
tokens to the stopword filter. -/
def appRecord : Record := { all_domains := [str "app.com"] }

/-- A record whose first SAN misses, second SAN hits, and third SAN would
also hit if it were ever evaluated. -/
def sampleAhoRecord : Record :=
  { all_domains := [str "socket.example", str "store.google.com", str "another.google.com"] }

/-- A record with exactly 15 SAN domains (the default bulk threshold). -/
def bulkBoundaryRecord : Record := { all_domains := List.replicate 15 (str "a.com") }

/-- A stage that raises on every record. -/
def boomStage : Record → Except String Record := fun _ => Except.error "boom"

/-- A stage that runs the bulk marker and returns normally. -/
def bulkStage : Record → Except String Record := fun r => Except.ok (BulkDomainMarker.run 15 r)

/-- The record fed to the pipeline-runner theorems. -/
def c9Record : Record := { all_domains := [str "x.com"] }

/-! ### Claim theorems -/

/-- Claim C1 (code-bug evidence): on a record whose ledger contains a
Bulk-Marker entry with output `true`, `DomainMatching.run` nevertheless
appends a Correlation verdict entry: the `continue` in the collection loop
only skips copying the bulk output into the local dict (which is never
read afterwards), so correlation is not skipped, contradicting the claim
and the code's own comment. -/
theorem domainMatching_correlates_despite_bulk_true :
    DomainMatching.run simpleExtract simpleSegment false
        DomainMatching.DomainMatchingOption.ORDER_MATCH bulkTrueRecord =
      { bulkTrueRecord with analysers := some (bulkLedger ++
          [⟨DomainMatching.NAME, Output.verdict
            [(str "login-appleid.managesuppport.com", [str "apple.com"])]⟩]) } := by
  rfl

/-- Claim C2 (counterexample): in order mode, with matched domain
`apple.com.evil.net`, token sequence `[apple, com, evil, net]` and
candidate reference domain `apple.com` (token sequence `[apple, com]`),
the joined string `apple.com` occurs as a contiguous substring (at the
very start) of `apple.com.evil.net`, the legitimate-relationship filter
does not trigger, and yet the candidate is not reported — the code
requires the occurrence to be preceded by a dot. -/
theorem order_match_prefix_occurrence_not_reported :
    pyContains (joinDot [str "apple", str "com", str "evil", str "net"])
      (joinDot (DomainMatching.legitTokens simpleExtract simpleSegment true (str "apple.com"))) = true
  ∧ ¬((simpleExtract (str "apple.com")).domain = (simpleExtract (str "apple.com.evil.net")).domain
      ∧ (simpleExtract (str "apple.com")).suffix = (simpleExtract (str "apple.com.evil.net")).suffix)
  ∧ str "apple.com" ∉ dictVals (DomainMatching.matchFn simpleExtract simpleSegment true
      DomainMatching.DomainMatchingOption.ORDER_MATCH c2AhoOut c2SegOut) (str "apple.com.evil.net")
  ∧ DomainMatching.run simpleExtract simpleSegment true
      DomainMatching.DomainMatchingOption.ORDER_MATCH c2Record = c2Record := by
  refine ⟨rfl, by decide, by decide, rfl⟩

/-- Claim C2 (amended): in order mode, for a matched domain `M` with token
sequence `T` and a candidate reference domain `R` surviving the
legitimate-relationship filter, `R` is reported for `M` if and only if
`'.' ++` the dot-joined string of `R`'s segmented tokens occurs as a
contiguous substring of the dot-joined string of `T` — i.e. the occurrence
must be immediately preceded by a dot, so an occurrence at the very start
of `T`'s joined string does not count. -/
theorem order_match_reports_iff_dot_prefixed_occurrence
    (extract : Str → Ext) (segment : Str → List Str) (includeTld : Bool)
    (ahoOut : List (Str × MatchVal)) (segOut : List (Str × List Str))
    (m R : Str) (mv : MatchVal) (T : List Str)
    (hseg : dictGet? segOut m = some T)
    (hmv : (m, mv) ∈ ahoOut) (hR : R ∈ mv.iterate)
    (hfilter : ¬((extract R).domain = (extract m).domain
      ∧ (extract R).suffix = (extract m).suffix)) :
    R ∈ dictVals (DomainMatching.matchFn extract segment includeTld
        DomainMatching.DomainMatchingOption.ORDER_MATCH ahoOut segOut) m ↔
      pyContains (joinDot T)
        ('.' :: joinDot (DomainMatching.legitTokens extract segment includeTld R)) = true := by
  rw [DomainMatching.matchFn_mem]
  constructor
  · rintro ⟨mv', hmem', phish, hphish, hiter', hcand⟩
    rw [hseg] at hphish
    injection hphish with hp
    subst hp
    unfold DomainMatching.candFilter at hcand
    rw [if_neg hfilter] at hcand
    exact hcand
  · intro hocc
    refine ⟨mv, hmv, T, hseg, hR, ?_⟩
    unfold DomainMatching.candFilter
    rw [if_neg hfilter]
    exact hocc

/-- Claim C2 (witness): the amended rule applied to the phishing scenario
of the repository's tests, where the dot-prefixed occurrence exists. -/
theorem order_match_dot_prefixed_witness :
    str "apple.com" ∈ dictVals (DomainMatching.matchFn simpleExtract simpleSegment false
        DomainMatching.DomainMatchingOption.ORDER_MATCH
        [(str "login-appleid.managesuppport.com", MatchVal.canon [str "apple.com"])]
        [(str "login-appleid.managesuppport.com",
          [str "login", str "apple", str "id", str "manage", str "suppport"])])
      (str "login-appleid.managesuppport.com") :=
  (order_match_reports_iff_dot_prefixed_occurrence simpleExtract simpleSegment false
    [(str "login-appleid.managesuppport.com", MatchVal.canon [str "apple.com"])]
    [(str "login-appleid.managesuppport.com",
      [str "login", str "apple", str "id", str "manage", str "suppport"])]
    (str "login-appleid.managesuppport.com") (str "apple.com")
    (MatchVal.canon [str "apple.com"])
    [str "login", str "apple", str "id", str "manage", str "suppport"]
    (by decide) (by decide) (by decide) (by decide)).mpr (by decide)

/-- Claim C3: a candidate reference domain whose (registrable-domain,
suffix) pair equals the matched domain's pair is never reported for that
matched domain; in particular the `zendesk.com` / `agrosupport.zendesk.com`
scenario produces no Correlation verdict entry at all. -/
theorem legitimate_relationship_filter_skips
    (extract : Str → Ext) (segment : Str → List Str) (includeTld : Bool)
    (opt : DomainMatching.DomainMatchingOption)
    (ahoOut : List (Str × MatchVal)) (segOut : List (Str × List Str)) (m R : Str)
    (hpair : (extract R).domain = (extract m).domain
      ∧ (extract R).suffix = (extract m).suffix) :
    R ∉ dictVals (DomainMatching.matchFn extract segment includeTld opt ahoOut segOut) m
  ∧ DomainMatching.run simpleExtract simpleSegment true
      DomainMatching.DomainMatchingOption.ORDER_MATCH zendeskRecord = zendeskRecord := by
  constructor
  · rw [DomainMatching.matchFn_mem]
    rintro ⟨mv, _, phish, _, _, hcand⟩
    unfold DomainMatching.candFilter at hcand
    rw [if_pos hpair] at hcand
    cases hcand
  · rfl

/-- Claim C3 (witness): the filter applied to the zendesk scenario. -/
theorem legitimate_relationship_filter_skips_witness :
    str "zendesk.com" ∉ dictVals (DomainMatching.matchFn simpleExtract simpleSegment true
      DomainMatching.DomainMatchingOption.ORDER_MATCH
      [(str "agrosupport.zendesk.com", MatchVal.canon [str "zendesk.com"])]
      [(str "agrosupport.zendesk.com", [str "agro", str "support", str "zendesk", str "com"])])
      (str "agrosupport.zendesk.com") :=
  (legitimate_relationship_filter_skips simpleExtract simpleSegment true
    DomainMatching.DomainMatchingOption.ORDER_MATCH
    [(str "agrosupport.zendesk.com", MatchVal.canon [str "zendesk.com"])]
    [(str "agrosupport.zendesk.com", [str "agro", str "support", str "zendesk", str "com"])]
    (str "agrosupport.zendesk.com") (str "zendesk.com") (by decide)).1

/-- Claim C4: when the record has no ledger at all, or its ledger has no
Substring-Matcher entry, or no Word-Segmenter entry, the Correlation stage
returns the record unchanged. -/
theorem correlation_noop_when_inputs_missing
    (extract : Str → Ext) (segment : Str → List Str) (includeTld : Bool)
    (opt : DomainMatching.DomainMatchingOption) (r : Record)
    (h : r.analysers = none
       ∨ (∀ en ∈ r.analysers.getD [], en.analyser ≠ AhoCorasickDomainMatching.NAME)
       ∨ (∀ en ∈ r.analysers.getD [], en.analyser ≠ WordSegmentation.NAME)) :
    DomainMatching.run extract segment includeTld opt r = r := by
  cases ha : r.analysers with
  | none =>
    unfold DomainMatching.run
    rw [ha]
  | some ledger =>
    rcases h with h | h | h
    · rw [ha] at h; cases h
    · rw [ha] at h
      have haho : (ledger.foldl DomainMatching.collectStep ⟨none, none, none⟩).aho = none :=
        DomainMatching.collect_aho_of_absent ledger ⟨none, none, none⟩ (by simpa using h)
      unfold DomainMatching.run
      rw [ha]
      simp [haho, DomainMatching.otruthy]
    · rw [ha] at h
      have hseg : (ledger.foldl DomainMatching.collectStep ⟨none, none, none⟩).seg = none :=
        DomainMatching.collect_seg_of_absent ledger ⟨none, none, none⟩ (by simpa using h)
      unfold DomainMatching.run
      rw [ha]
      simp [hseg, DomainMatching.otruthy]

/-- Claim C4 (witness): a record whose ledger has only a Word-Segmenter
entry is returned unchanged. -/
theorem correlation_noop_when_inputs_missing_witness :
    DomainMatching.run simpleExtract simpleSegment true
      DomainMatching.DomainMatchingOption.ORDER_MATCH
      { all_domains := [str "a.com"]
        analysers := some [⟨WordSegmentation.NAME, Output.segments [(str "a.com", [str "a", str "com"])]⟩] } =
      { all_domains := [str "a.com"]
        analysers := some [⟨WordSegmentation.NAME, Output.segments [(str "a.com", [str "a", str "com"])]⟩] } :=
  correlation_noop_when_inputs_missing simpleExtract simpleSegment true
    DomainMatching.DomainMatchingOption.ORDER_MATCH _ (Or.inr (Or.inl (by decide)))

/-- Claim C5: the Substring Matcher scans the SAN list in record order and
stops at the first SAN whose query yields a non-empty match list — it
appends one entry mapping only that (cleaned) first matched domain to its
match, independently of all later SANs; and when every SAN misses, no
entry is appended. -/
theorem substring_matcher_first_match_wins (extract : Str → Ext)
    (st : AhoCorasickDomainMatching.State) (r : Record) :
    ((∀ x ∈ r.all_domains,
        AhoCorasickDomainMatching.matchesFor extract st (AhoCorasickDomainMatching.clean x) = []) →
      (AhoCorasickDomainMatching.run extract st r).analysers = some (r.analysers.getD []))
  ∧ (∀ pre d post, r.all_domains = pre ++ d :: post →
      (∀ x ∈ pre,
        AhoCorasickDomainMatching.matchesFor extract st (AhoCorasickDomainMatching.clean x) = []) →
      AhoCorasickDomainMatching.matchesFor extract st (AhoCorasickDomainMatching.clean d) ≠ [] →
      (AhoCorasickDomainMatching.run extract st r).analysers =
        some (r.analysers.getD [] ++
          [⟨AhoCorasickDomainMatching.NAME, Output.matches
            [(AhoCorasickDomainMatching.clean d,
              AhoCorasickDomainMatching.best st
                (AhoCorasickDomainMatching.matchesFor extract st
                  (AhoCorasickDomainMatching.clean d)))]⟩])) := by
  constructor
  · intro h
    unfold AhoCorasickDomainMatching.run
    rw [AhoCorasickDomainMatching.scan_nil_of_all_miss extract st r.all_domains h]
    simp
  · intro pre d post hsplit hpre hd
    unfold AhoCorasickDomainMatching.run
    rw [hsplit, AhoCorasickDomainMatching.scan_first_hit extract st pre d post hpre hd]
    simp

/-- Claim C5 (witness): with reference list `[google.com]`, the record
whose SANs are `[socket.example, store.google.com, another.google.com]`
gets exactly one entry, for `store.google.com`. -/
theorem substring_matcher_first_match_wins_witness :
    (AhoCorasickDomainMatching.run simpleExtract
        (AhoCorasickDomainMatching.init simpleExtract [str "google.com"]) sampleAhoRecord).analysers =
      some [⟨AhoCorasickDomainMatching.NAME, Output.matches
        [(str "store.google.com", MatchVal.canon [str "google.com"])]⟩] := by
  have h := (substring_matcher_first_match_wins simpleExtract
    (AhoCorasickDomainMatching.init simpleExtract [str "google.com"]) sampleAhoRecord).2
    [str "socket.example"] (str "store.google.com") [str "another.google.com"]
    (by decide) (by decide) (by decide)
  rw [h]
  decide

/-- Claim C6: every occurrence whose label is shorter than
`MIN_MATCHING_LENGTH = 3` is discarded from the matcher's result — even
when it truly occurs in the query string — and every returned match has
length at least 3. -/
theorem short_matches_discarded (extract : Str → Ext)
    (st : AhoCorasickDomainMatching.State) (d w : Str)
    (hshort : w.length < AhoCorasickDomainMatching.MIN_MATCHING_LENGTH)
    (_hocc : w ∈ AhoCorasickDomainMatching.iterValues st.words
      (AhoCorasickDomainMatching.queryOf extract (AhoCorasickDomainMatching.clean d))) :
    w ∉ AhoCorasickDomainMatching.matchesFor extract st (AhoCorasickDomainMatching.clean d)
  ∧ ∀ w' ∈ AhoCorasickDomainMatching.matchesFor extract st (AhoCorasickDomainMatching.clean d),
      AhoCorasickDomainMatching.MIN_MATCHING_LENGTH ≤ w'.length := by
  constructor
  · intro hmem
    have := AhoCorasickDomainMatching.length_of_mem_matchesFor extract st _ w hmem
    omega
  · intro w' hw'
    exact AhoCorasickDomainMatching.length_of_mem_matchesFor extract st _ w' hw'

/-- Claim C6 (witness): the 2-character indexed label `ab` truly occurs in
the query for `xab.net` and is still not returned. -/
theorem short_matches_discarded_witness :
    str "ab" ∉ AhoCorasickDomainMatching.matchesFor simpleExtract
      (AhoCorasickDomainMatching.init simpleExtract [str "ab.com"])
      (AhoCorasickDomainMatching.clean (str "xab.net")) :=
  (short_matches_discarded simpleExtract
    (AhoCorasickDomainMatching.init simpleExtract [str "ab.com"])
    (str "xab.net") (str "ab") (by decide) (by decide)).1

/-- Claim C7: the Bulk-Certificate Marker always appends exactly one entry
whose boolean output is `true` iff the SAN count is at least the
threshold; a record with exactly `threshold` SANs is marked `true`, one
with `threshold - 1` SANs is marked `false`; the default threshold is 15. -/
theorem bulk_marker_always_appends_flag (t : Nat) (r : Record) :
    (BulkDomainMarker.run t r).analysers =
      some (r.analysers.getD [] ++
        [⟨BulkDomainMarker.NAME, Output.flag (decide (t ≤ r.all_domains.length))⟩])
  ∧ (r.all_domains.length = t →
      (BulkDomainMarker.run t r).analysers =
        some (r.analysers.getD [] ++ [⟨BulkDomainMarker.NAME, Output.flag true⟩]))
  ∧ (r.all_domains.length + 1 = t →
      (BulkDomainMarker.run t r).analysers =
        some (r.analysers.getD [] ++ [⟨BulkDomainMarker.NAME, Output.flag false⟩]))
  ∧ BulkDomainMarker.BULK_DOMAIN_THRESHOLD = 15 := by
  refine ⟨rfl, ?_, ?_, rfl⟩
  · intro h
    have hle : t ≤ r.all_domains.length := by omega
    simp [BulkDomainMarker.run, hle]
  · intro h
    have hlt : ¬(t ≤ r.all_domains.length) := by omega
    simp [BulkDomainMarker.run, hlt]

/-- Claim C7 (witness): a record with exactly 15 SAN domains is marked
bulk at the default threshold. -/
theorem bulk_marker_always_appends_flag_witness :
    (BulkDomainMarker.run 15 bulkBoundaryRecord).analysers =
      some [⟨BulkDomainMarker.NAME, Output.flag true⟩] := by
  have h := (bulk_marker_always_appends_flag 15 bulkBoundaryRecord).2.1 (by decide)
  simpa using h

/-- Claim C8 (counterexample): for the SAN `app.com`, the label `app`
segments to the single token `app`, which the stopword filter removes, so
the label has no surviving tokens; the claim requires the original label
to be kept unsplit, but the Word Segmenter's output for `app.com` is
`[com]`: the label is dropped. -/
theorem unsegmentable_label_dropped_counterexample :
    (simpleSegment (str "app")).filter
        (fun w => decide (w ∉ WordSegmentation.STOPWORDS)) = []
  ∧ WordSegmentation.segmentDomain simpleExtract simpleSegment (str "app.com") = [str "com"]
  ∧ str "app" ∉ WordSegmentation.segmentDomain simpleExtract simpleSegment (str "app.com")
  ∧ (WordSegmentation.run simpleExtract simpleSegment appRecord).analysers =
      some [⟨WordSegmentation.NAME, Output.segments [(str "app.com", [str "com"])]⟩] := by
  refine ⟨by decide, by decide, by decide, by decide⟩

/-- Claim C8 (amended): every token in a domain's Word-Segmenter output
comes from the segmentation of some dot-token of the domain's parts and
survives the stopword filter — there is no fallback keeping an original
label, so a label whose segmentation yields no surviving tokens
contributes nothing to the output sequence. -/
theorem segmenter_output_tokens_come_from_segmentation
    (extract : Str → Ext) (segment : Str → List Str) (domain l : Str)
    (hl : l ∈ WordSegmentation.segmentDomain extract segment domain) :
    ∃ part ∈ [(extract domain).subdomain, (extract domain).domain, (extract domain).suffix],
      ∃ token ∈ splitDot part, l ∈ segment token ∧ l ∉ WordSegmentation.STOPWORDS := by
  unfold WordSegmentation.segmentDomain at hl
  obtain ⟨part, hpart, hl⟩ := List.mem_flatMap.mp hl
  obtain ⟨token, htoken, hl⟩ := List.mem_flatMap.mp hl
  have h := List.mem_filter.mp hl
  exact ⟨part, hpart, token, htoken, h.1, by simpa using h.2⟩

/-- Claim C8 (witness): the surviving token `com` of `app.com` indeed
comes from segmenting the token `com` of the suffix part. -/
theorem segmenter_output_tokens_witness :
    ∃ part ∈ [(simpleExtract (str "app.com")).subdomain,
      (simpleExtract (str "app.com")).domain, (simpleExtract (str "app.com")).suffix],
      ∃ token ∈ splitDot part, str "com" ∈ simpleSegment token
        ∧ str "com" ∉ WordSegmentation.STOPWORDS :=
  segmenter_output_tokens_come_from_segmentation simpleExtract simpleSegment
    (str "app.com") (str "com") (by decide)

/-- Claim C9 (counterexample): the analyser loop of
`CertstreamAnalytics._callback` contains no error handling, so a stage
that raises aborts the run of the record with the error instead of being
converted into "no output for this stage" and continuing with the next
stage (the behaviour described by the claim, `runAnalysersSpec`). -/
theorem stage_error_not_caught_counterexample :
    runAnalysers (fun _ => true) [boomStage, bulkStage] c9Record = Except.error "boom"
  ∧ runAnalysersSpec (fun _ => true) [boomStage, bulkStage] c9Record =
      BulkDomainMarker.run 15 c9Record
  ∧ (Except.error "boom" : Except String Record) ≠
      Except.ok (BulkDomainMarker.run 15 c9Record) := by
  refine ⟨rfl, rfl, ?_⟩
  intro h
  exact Except.noConfusion h

/-- Claim C9 (amended): an error raised inside an analysis stage is not
caught by the pipeline runner: after any prefix of successfully completed
stages, a failing stage makes the whole run of the record abort with that
error, and the remaining stages never run. -/
theorem stage_error_propagates {α ε : Type} (truthy : α → Bool)
    (pre rest : List (α → Except ε α)) (s : α → Except ε α) (r r' : α) (err : ε)
    (hpre : runAnalysers truthy pre r = Except.ok r')
    (ht : truthy r' = true)
    (hs : s r' = Except.error err) :
    runAnalysers truthy (pre ++ s :: rest) r = Except.error err := by
  induction pre generalizing r with
  | nil =>
    have hr : r = r' := by
      unfold runAnalysers at hpre
      injection hpre
    subst hr
    rw [List.nil_append]
    unfold runAnalysers
    simp [ht, hs]
  | cons p ps ih =>
    rw [List.cons_append]
    unfold runAnalysers at hpre ⊢
    by_cases htr : truthy r = false
    · rw [if_pos htr] at hpre
      injection hpre with hr
      subst hr
      rw [ht] at htr
      cases htr
    · rw [if_neg htr] at hpre ⊢
      cases hp : p r with
      | error e2 => rw [hp] at hpre; cases hpre
      | ok r2 =>
        rw [hp] at hpre
        exact ih r2 hpre

/-- Claim C9 (witness): after one successful stage, the raising stage
aborts the whole run with its error. -/
theorem stage_error_propagates_witness :
    runAnalysers (fun _ => true) ([bulkStage] ++ boomStage :: []) c9Record =
      Except.error "boom" :=
  stage_error_propagates (fun _ => true) [bulkStage] [] boomStage c9Record
    (BulkDomainMarker.run 15 c9Record) "boom" rfl rfl rfl

/-- Claim C10: for a matcher built by the constructor from any domain
list, every indexed word is a key of the label-to-canonical-domain dict,
so the bare-string fallback in `run` is unreachable and every value in the
results dict is a `canon` list of exactly one canonical domain. -/
theorem aho_output_values_singleton_canonical (extract : Str → Ext)
    (ds doms : List Str) (kv : Str × MatchVal)
    (hkv : kv ∈ AhoCorasickDomainMatching.scan extract
      (AhoCorasickDomainMatching.init extract ds) doms) :
    ∃ c, kv.2 = MatchVal.canon [c] := by
  obtain ⟨d, hne, hkveq⟩ := AhoCorasickDomainMatching.scan_mem extract
    (AhoCorasickDomainMatching.init extract ds) doms kv hkv
  have hsub : ∀ w ∈ AhoCorasickDomainMatching.matchesFor extract
      (AhoCorasickDomainMatching.init extract ds) (AhoCorasickDomainMatching.clean d),
      (dictGet? (AhoCorasickDomainMatching.init extract ds).domains w).isSome = true :=
    fun w hw => AhoCorasickDomainMatching.init_inv extract ds w
      (AhoCorasickDomainMatching.mem_matchesFor_words extract _ _ w hw)
  obtain ⟨c, hc⟩ := AhoCorasickDomainMatching.best_canon
    (AhoCorasickDomainMatching.init extract ds) _ hne hsub
  refine ⟨c, ?_⟩
  rw [hkveq]
  exact hc

/-- Claim C10 (witness): the single entry produced for `store.google.com`
holds the one-element canonical list `[google.com]`. -/
theorem aho_output_values_singleton_canonical_witness :
    ∃ c, (str "store.google.com", MatchVal.canon [str "google.com"]).2 = MatchVal.canon [c] :=
  aho_output_values_singleton_canonical simpleExtract [str "google.com"]
    [str "store.google.com"]
    (str "store.google.com", MatchVal.canon [str "google.com"]) (by decide)

end CertstreamAnalytics
